import Mathlib

/-!
Verification of the Book Tracker core against its specification.

The embedding covers the List Manager (`script/data.js`), the
Recommendation Engine (`script/recommendations.js`) and the cover-URL
derivation of the catalog client (`api.js`).  JS objects are embedded as
structures, JS arrays as lists, JS `null`/`undefined` as `Option`, and JS
numbers as rationals (for ratings) or naturals (for counts).  A JS string
test `if (s)` is embedded as `s ≠ ""` and a missing value as `none`.
-/

namespace BookTracker

/-- Optional thumbnail URLs of a book (`volumeInfo.imageLinks`). -/
structure ImageLinks where
  thumbnail : Option String
  smallThumbnail : Option String
deriving DecidableEq

/-- One `{type, identifier}` entry of `volumeInfo.industryIdentifiers`;
`identifier` may be absent (the source guards with `id.identifier?.`). -/
structure IndustryIdentifier where
  type : String
  identifier : Option String
deriving DecidableEq

/-- The descriptive block (`volumeInfo`) of a book record, restricted to the
fields the core reads. -/
structure VolumeInfo where
  title : Option String
  description : Option String
  authors : Option (List String)
  categories : Option (List String)
  imageLinks : Option ImageLinks
  averageRating : Option Rat
  ratingsCount : Option Nat
  industryIdentifiers : Option (List IndustryIdentifier)
deriving DecidableEq

/-- A book record: a string id plus an optional descriptive block. -/
structure Book where
  id : String
  volumeInfo : Option VolumeInfo
deriving DecidableEq

/-- The three reading lists of `data.js` (`userBooks`). -/
structure UserBooks where
  currentlyReading : List Book
  wantToRead : List Book
  readBooks : List Book
deriving DecidableEq

/-- The module state of `data.js`: the reading lists plus the two caches. -/
structure AppState where
  userBooks : UserBooks
  lastSearchResults : List Book
  recommendationsCache : List Book
deriving DecidableEq

/-- Resolved key of one of the three reading lists. -/
inductive ListKey where
  | currentlyReading
  | wantToRead
  | readBooks
deriving DecidableEq

/-- JS property lookup `userBooks[listName]`: only the three list names
resolve (an array value is always truthy, any other name yields a falsy
`undefined`). -/
def keyOf? (listName : String) : Option ListKey :=
  if listName = "currentlyReading" then some ListKey.currentlyReading
  else if listName = "wantToRead" then some ListKey.wantToRead
  else if listName = "readBooks" then some ListKey.readBooks
  else none

/-- Read the list stored under a resolved key. -/
def getL (ub : UserBooks) : ListKey → List Book
  | ListKey.currentlyReading => ub.currentlyReading
  | ListKey.wantToRead => ub.wantToRead
  | ListKey.readBooks => ub.readBooks

/-- Replace the list stored under a resolved key. -/
def setL (ub : UserBooks) : ListKey → List Book → UserBooks
  | ListKey.currentlyReading, l => { ub with currentlyReading := l }
  | ListKey.wantToRead, l => { ub with wantToRead := l }
  | ListKey.readBooks, l => { ub with readBooks := l }

/-- Replace the in-memory `userBooks` of the module state. -/
def setUB (st : AppState) (ub : UserBooks) : AppState :=
  { st with userBooks := ub }

/-- `Object.values(userBooks).some(list => list.some(b => b.id === book.id))`
from `addBookToList` (field order: currentlyReading, wantToRead, readBooks). -/
def isAlreadyInAnyList (ub : UserBooks) (bookId : String) : Bool :=
  ub.currentlyReading.any (fun b => b.id == bookId) ||
  ub.wantToRead.any (fun b => b.id == bookId) ||
  ub.readBooks.any (fun b => b.id == bookId)

/-- `addBookToList(book, listName)` of `data.js` (the `saveUserBooks()`
persistence call is a store write and does not change the in-memory state). -/
def addBookToList (st : AppState) (book : Book) (listName : String) :
    Bool × AppState :=
  if book.id = "" then (false, st) else
  match keyOf? listName with
  | none => (false, st)
  | some k =>
    if isAlreadyInAnyList st.userBooks book.id then (false, st)
    else (true, setUB st (setL st.userBooks k (getL st.userBooks k ++ [book])))

/-- `removeBookFromList(bookId, listName)` of `data.js`: filters the list,
succeeds iff the length shrank. -/
def removeBookFromList (st : AppState) (bookId : String) (listName : String) :
    Bool × AppState :=
  if bookId = "" then (false, st) else
  match keyOf? listName with
  | none => (false, st)
  | some k =>
    let l := getL st.userBooks k
    let l' := l.filter (fun b => !(b.id == bookId))
    if l'.length < l.length then
      (true, setUB st (setL st.userBooks k l'))
    else (false, st)

/-- `findIndex` + `splice(index, 1)` from `moveBookToList`: remove the first
element with the given id, returning it and the remaining list. -/
def takeFirst (l : List Book) (bookId : String) : Option (Book × List Book) :=
  match l with
  | [] => none
  | b :: bs =>
    if b.id == bookId then some (b, bs)
    else (takeFirst bs bookId).map (fun p => (p.1, b :: p.2))

/-- `lastSearchResults.find(...) || recommendationsCache.find(...) || null`
from `moveBookToList`. -/
def findInCaches (st : AppState) (bookId : String) : Option Book :=
  (st.lastSearchResults.find? (fun b => b.id == bookId)).orElse
    (fun _ => st.recommendationsCache.find? (fun b => b.id == bookId))

/-- `moveBookToList(bookId, fromListName, toListName)` of `data.js`. -/
def moveBookToList (st : AppState) (bookId : String)
    (fromListName : Option String) (toListName : String) : Bool × AppState :=
  if bookId = "" then (false, st) else
  match keyOf? toListName with
  | none => (false, st)
  | some tk =>
    let located : Option (Book × AppState) :=
      match fromListName.bind keyOf? with
      | some fk =>
        match takeFirst (getL st.userBooks fk) bookId with
        | some p => some (p.1, setUB st (setL st.userBooks fk p.2))
        | none => none
      | none => (findInCaches st bookId).map (fun b => (b, st))
    match located with
    | none => (false, st)
    | some (b, st1) =>
      if (getL st1.userBooks tk).any (fun x => x.id == bookId) then (true, st1)
      else (true, setUB st1 (setL st1.userBooks tk (getL st1.userBooks tk ++ [b])))

/-- `getBookListStatus(bookId)` of `data.js` (`for ... in` visits the fields
in insertion order). -/
def getBookListStatus (ub : UserBooks) (bookId : String) : Option String :=
  if ub.currentlyReading.any (fun b => b.id == bookId) then some "currentlyReading"
  else if ub.wantToRead.any (fun b => b.id == bookId) then some "wantToRead"
  else if ub.readBooks.any (fun b => b.id == bookId) then some "readBooks"
  else none

/-- Insert an id into an insertion-ordered set (`Set.add`). -/
def insertStr (acc : List String) (s : String) : List String :=
  if acc.contains s then acc else acc ++ [s]

/-- `getAllUserBookIds()` of `data.js`: the ids of the three lists collected
into a `Set`, in insertion order. -/
def getAllUserBookIds (ub : UserBooks) : List String :=
  ((ub.currentlyReading ++ ub.wantToRead ++ ub.readBooks).map Book.id).foldl
    insertStr []

/-- Number of occurrences of an id in one list. -/
def countIn (l : List Book) (bookId : String) : Nat :=
  l.countP (fun b => b.id == bookId)

/-- Total number of occurrences of an id across the three lists. -/
def totCount (ub : UserBooks) (bookId : String) : Nat :=
  countIn ub.currentlyReading bookId + countIn ub.wantToRead bookId +
    countIn ub.readBooks bookId

/-- Number of the three lists that contain the id. -/
def numListsContaining (ub : UserBooks) (bookId : String) : Nat :=
  ([ub.currentlyReading, ub.wantToRead, ub.readBooks].filter
    (fun l => l.any (fun b => b.id == bookId))).length

/-- Strong disjointness: each id occurs at most once across the three lists. -/
def InvStrong (ub : UserBooks) : Prop :=
  ∀ bookId : String, totCount ub bookId ≤ 1

/-- A state with empty reading lists and given cache contents. -/
def initState (searchCache recCache : List Book) : AppState :=
  ⟨⟨[], [], []⟩, searchCache, recCache⟩

/- ### Operation sequences and the disjointness invariant (C1) -/

/-- One List Manager call. -/
inductive Op where
  | add (book : Book) (listName : String)
  | remove (bookId : String) (listName : String)
  | move (bookId : String) (fromListName : Option String) (toListName : String)
deriving DecidableEq

/-- The state after one List Manager call (the returned flag dropped). -/
def applyOp (st : AppState) : Op → AppState
  | Op.add b n => (addBookToList st b n).2
  | Op.remove i n => (removeBookFromList st i n).2
  | Op.move i f t => (moveBookToList st i f t).2

/-- The state after a sequence of List Manager calls. -/
def runOps (st : AppState) (ops : List Op) : AppState :=
  ops.foldl applyOp st

/-- Guard on a single call: a move must either name one of the three lists
as its source, or be issued while the id is not in any list (the way the
presentation layer calls it, passing `getBookListStatus`). -/
def okOpB (st : AppState) : Op → Bool
  | Op.add _ _ => true
  | Op.remove _ _ => true
  | Op.move bookId fromListName _ =>
    match fromListName.bind keyOf? with
    | some _ => true
    | none => !(isAlreadyInAnyList st.userBooks bookId)

/-- Guard on a whole call sequence. -/
def okRunB (st : AppState) : List Op → Bool
  | [] => true
  | op :: ops => okOpB st op && okRunB (applyOp st op) ops

/- ### Recommendation Engine (script/recommendations.js) -/

/-- The stop-word list of `processText`, reproduced verbatim. -/
def stopWords : List String :=
  ["the", "and", "for", "with", "from", "book", "story", "this", "that",
   "your", "have", "been", "will", "they", "their", "into", "some", "each",
   "such", "many", "more", "than", "then", "also", "just", "about", "when",
   "what", "where", "which", "why", "how", "there", "them", "these",
   "those", "our", "out", "you", "one", "two", "three", "said"]

/-- JS `\w` word characters: ASCII letters, digits and underscore. -/
def isWordChar (c : Char) : Bool :=
  c.isAlphanum || c == '_'

/-- `processText`: lower-case, split on non-word characters, keep tokens of
length > 3 that are not stop words.  (Splitting at each non-word character
instead of at runs only adds empty tokens, which the length filter
removes, so the kept tokens coincide.) -/
def processText (text : Option String) : List String :=
  match text with
  | none => []
  | some s =>
    (s.toLower.split (fun c => !(isWordChar c))).filter
      (fun w => w.length > 3 && !(stopWords.contains w))

/-- One step of the `readBooks.forEach` scan: collect the book's
categories, then authors, then title and description keywords into the
three insertion-ordered sets (genres, authors, keywords). -/
def collectSignals (acc : List String × List String × List String)
    (book : Book) : List String × List String × List String :=
  let cats := match book.volumeInfo with
    | some i => i.categories.getD []
    | none => []
  let auths := match book.volumeInfo with
    | some i => i.authors.getD []
    | none => []
  let title := match book.volumeInfo with
    | some i => i.title
    | none => none
  let desc := match book.volumeInfo with
    | some i => i.description
    | none => none
  (cats.foldl insertStr acc.1,
   auths.foldl insertStr acc.2.1,
   (processText title ++ processText desc).foldl insertStr acc.2.2)

/-- The preference-signal extraction over the whole `readBooks` history. -/
def extractSignals (readBooks : List Book) :
    List String × List String × List String :=
  readBooks.foldl collectSignals ([], [], [])

/-- Query construction of `generateRecommendations`: `subject:` queries
for the first 3 genres, `inauthor:` queries for the first 2 authors, one
space-joined query for the first 3 keywords, and the fallback
`"bestsellers fiction"` when no query was built. -/
def buildQueries (readBooks : List Book) : List String :=
  let s := extractSignals readBooks
  let topGenres := s.1.take 3
  let topAuthors := s.2.1.take 2
  let topKeywords := s.2.2.take 3
  let qs :=
    topGenres.map (fun g => "subject:" ++ g) ++
    topAuthors.map (fun a => "inauthor:" ++ a) ++
    (if topKeywords.isEmpty then [] else [String.intercalate " " topKeywords])
  if qs.isEmpty then ["bestsellers fiction"] else qs

/- ### Fan-out, merge and filter (C5, C8) -/

/-- One settled fan-out result: `fetchBooks(q).catch(() => [])` maps a
failed query to an empty result array. -/
def settleResult (r : Except String (List Book)) : List Book :=
  match r with
  | Except.ok books => books
  | Except.error _ => []

/-- The merge step: `recommendedBooks.push(...resultSet)` over the settled
results in query order. -/
def mergeResults (rs : List (Except String (List Book))) : List Book :=
  (rs.map settleResult).foldl (fun acc l => acc ++ l) []

/-- Truthiness of an optional JS string (present and non-empty). -/
def truthyS (s : Option String) : Bool :=
  !(s.getD "" == "")

/-- `info.imageLinks?.thumbnail || info.imageLinks?.smallThumbnail`. -/
def hasCover (info : VolumeInfo) : Bool :=
  match info.imageLinks with
  | none => false
  | some il => truthyS il.thumbnail || truthyS il.smallThumbnail

/-- The per-book conditions of the filter pass that do not depend on the
scan state: non-empty id, descriptive block present, cover thumbnail
present. -/
def eligibleBook (b : Book) : Bool :=
  !(b.id == "") && b.volumeInfo.isSome &&
    (match b.volumeInfo with
     | some info => hasCover info
     | none => false)

/-- The keep condition of the filter pass, in source order: non-empty id,
descriptive block, id not already kept (`seenBookIds`), id not owned
(`userBookIds`), cover thumbnail. -/
def keepBook (owned seen : List String) (b : Book) : Bool :=
  !(b.id == "") && b.volumeInfo.isSome && !(seen.contains b.id) &&
    !(owned.contains b.id) &&
    (match b.volumeInfo with
     | some info => hasCover info
     | none => false)

/-- The `recommendedBooks.forEach` filter pass: kept books are appended in
order and their ids added to the seen set. -/
def filterBooks (owned : List String) : List Book → List String → List Book
  | [], _ => []
  | b :: rest, seen =>
    if keepBook owned seen b then b :: filterBooks owned rest (seen ++ [b.id])
    else filterBooks owned rest seen

/- ### Ranking (C6) -/

/-- `a.volumeInfo.averageRating || 0` (the filter pass guarantees a
descriptive block for every ranked book; a missing block also yields 0
here). -/
def ratingOf (b : Book) : Rat :=
  match b.volumeInfo with
  | some i => i.averageRating.getD 0
  | none => 0

/-- `a.volumeInfo.ratingsCount || 0`. -/
def countOf (b : Book) : Nat :=
  match b.volumeInfo with
  | some i => i.ratingsCount.getD 0
  | none => 0

/-- The sort key of a book. -/
def keyB (b : Book) : Rat × Nat :=
  (ratingOf b, countOf b)

/-- The source comparator returns a negative value for `(a, b)` — `a`
strictly precedes `b` — exactly when `a` has the higher rating, or equal
ratings and the higher ratings count. -/
def rankBefore (a b : Book) : Bool :=
  ratingOf b < ratingOf a ||
    (ratingOf a == ratingOf b && countOf b < countOf a)

/-- Descending rank order (before-or-tied). -/
def rankLe (a b : Book) : Prop :=
  ratingOf b < ratingOf a ∨
    (ratingOf a = ratingOf b ∧ countOf b ≤ countOf a)

/-- Stable insertion for a descending-sorted list: the element is placed
after every element that strictly precedes it, so ties keep their
original relative order (`Array.prototype.sort` is stable per the ES
specification). -/
def insertRanked (x : Book) : List Book → List Book
  | [] => [x]
  | y :: ys => if rankBefore y x then y :: insertRanked x ys else x :: y :: ys

/-- The stable sort of the ranking step, with the source comparator. -/
def sortBooks : List Book → List Book
  | [] => []
  | x :: xs => insertRanked x (sortBooks xs)

/-- The pipeline after the fan-out: merge, filter, rank, truncate to 10. -/
def finalRecommendations (owned : List String)
    (results : List (Except String (List Book))) : List Book :=
  (sortBooks (filterBooks owned (mergeResults results) [])).take 10

/-- Replace the in-memory Recommendation Cache
(`saveRecommendationsCache` always receives an array, so it always
overwrites). -/
def setRC (st : AppState) (recs : List Book) : AppState :=
  { st with recommendationsCache := recs }

/-- The commit step of `generateRecommendations`: cache the final
recommendations, an empty list included. -/
def commitRecommendations (st : AppState)
    (results : List (Except String (List Book))) : AppState :=
  setRC st (finalRecommendations (getAllUserBookIds st.userBooks) results)

/-- Example book record with a rating and a ratings count. -/
def ratedBook (s : String) (r : Rat) (c : Nat) : Book :=
  ⟨s, some ⟨none, none, none, none, none, some r, some c, none⟩⟩

/- ### Cover-URL derivation (api.js, C9) -/

/-- Prefix test on character lists. -/
def charsStart : List Char → List Char → Bool
  | [], _ => true
  | _ :: _, [] => false
  | p :: ps, c :: cs => c == p && charsStart ps cs

/-- JS `String.startsWith`, on the character lists of the strings. -/
def startsWithS (s pat : String) : Bool :=
  charsStart pat.data s.data

/-- Strip a leading pattern from a character list, if it is a prefix. -/
def dropStart? : List Char → List Char → Option (List Char)
  | [], s => some s
  | _ :: _, [] => none
  | p :: ps, c :: cs => if c == p then dropStart? ps cs else none

/-- Replace the first (leftmost) occurrence of `pat` by `repl`. -/
def replaceChars (pat repl : List Char) : List Char → List Char
  | [] => []
  | c :: cs =>
    match dropStart? pat (c :: cs) with
    | some rest => repl ++ rest
    | none => c :: replaceChars pat repl cs

/-- JS `String.replace` with a plain string pattern: replace only the
first occurrence (the one call site uses the non-empty pattern
`"OCLC:"`). -/
def replaceFirst (s pat repl : String) : String :=
  ⟨replaceChars pat.data repl.data s.data⟩

/-- One iteration of the identifier loop in `getOpenLibraryCover`: the
slots are (isbn13, isbn10, oclc) and a later match of the same kind
overwrites an earlier one. -/
def coverStep (acc : Option String × Option String × Option String)
    (i : IndustryIdentifier) :
    Option String × Option String × Option String :=
  if i.type == "ISBN_13" then (i.identifier, acc.2.1, acc.2.2)
  else if i.type == "ISBN_10" then (acc.1, i.identifier, acc.2.2)
  else if i.type == "OTHER" && startsWithS (i.identifier.getD "") "OCLC" then
    (acc.1, acc.2.1, some (replaceFirst (i.identifier.getD "") "OCLC:" ""))
  else acc

/-- The whole identifier loop, starting from three null slots. -/
def coverScan (ids : List IndustryIdentifier) :
    Option String × Option String × Option String :=
  ids.foldl coverStep (none, none, none)

/-- JS truthiness of a slot: holds a value and the value is non-empty. -/
def truthySlot (s : Option String) : Option String :=
  match s with
  | some t => if t == "" then none else some t
  | none => none

/-- `getOpenLibraryCover(volumeInfo, size = 'M')` of `api.js`. -/
def getOpenLibraryCover (volumeInfo : Option VolumeInfo)
    (size : String := "M") : Option String :=
  match volumeInfo with
  | none => none
  | some info =>
    match info.industryIdentifiers with
    | none => none
    | some ids =>
      match truthySlot (coverScan ids).1 with
      | some isbn13 => some ("https://covers.openlibrary.org/b/isbn/"
          ++ isbn13 ++ "-" ++ size ++ ".jpg")
      | none =>
        match truthySlot (coverScan ids).2.1 with
        | some isbn10 => some ("https://covers.openlibrary.org/b/isbn/"
            ++ isbn10 ++ "-" ++ size ++ ".jpg")
        | none =>
          match truthySlot (coverScan ids).2.2 with
          | some oclc => some ("https://covers.openlibrary.org/b/oclc/"
              ++ oclc ++ "-" ++ size ++ ".jpg")
          | none => none

/-- The declarative value of the isbn13 slot: the identifier of the last
`ISBN_13` entry. -/
def lastIsbn13 (ids : List IndustryIdentifier) : Option String :=
  match ids.reverse.find? (fun i => i.type == "ISBN_13") with
  | some i => i.identifier
  | none => none

/-- The declarative value of the isbn10 slot. -/
def lastIsbn10 (ids : List IndustryIdentifier) : Option String :=
  match ids.reverse.find? (fun i => i.type == "ISBN_10") with
  | some i => i.identifier
  | none => none

/-- The declarative value of the oclc slot: the last OCLC-prefixed
`OTHER` entry, its first `OCLC:` stripped. -/
def lastOclc (ids : List IndustryIdentifier) : Option String :=
  match ids.reverse.find? (fun i =>
      i.type == "OTHER" && startsWithS (i.identifier.getD "") "OCLC") with
  | some i => some (replaceFirst (i.identifier.getD "") "OCLC:" "")
  | none => none

/-- A descriptive block holding only identifiers. -/
def idBlock (ids : List IndustryIdentifier) : VolumeInfo :=
  ⟨none, none, none, none, none, none, none, some ids⟩

/-! ## Theorems -/

@[simp]
theorem setUB_userBooks (st : AppState) (ub : UserBooks) :
    (setUB st ub).userBooks = ub := rfl

@[simp]
theorem setUB_lastSearchResults (st : AppState) (ub : UserBooks) :
    (setUB st ub).lastSearchResults = st.lastSearchResults := rfl

@[simp]
theorem setUB_recommendationsCache (st : AppState) (ub : UserBooks) :
    (setUB st ub).recommendationsCache = st.recommendationsCache := rfl

@[simp]
theorem getL_setL_same (ub : UserBooks) (k : ListKey) (l : List Book) :
    getL (setL ub k l) k = l := by
  cases k <;> rfl

theorem getL_setL_ne (ub : UserBooks) (k j : ListKey) (l : List Book)
    (h : j ≠ k) : getL (setL ub k l) j = getL ub j := by
  cases k <;> cases j <;> first | rfl | exact absurd rfl h

/- ### Helper lemmas on counting -/

theorem countIn_append (l l' : List Book) (bookId : String) :
    countIn (l ++ l') bookId = countIn l bookId + countIn l' bookId := by
  simp [countIn, List.countP_append]

theorem countIn_singleton (b : Book) (bookId : String) :
    countIn [b] bookId = if b.id == bookId then 1 else 0 := by
  simp [countIn, List.countP_cons]

theorem countIn_filter_ne (l : List Book) (bookId : String) :
    countIn (l.filter (fun b => !(b.id == bookId))) bookId = 0 := by
  induction l with
  | nil => rfl
  | cons b bs ih =>
    by_cases h : b.id == bookId
    · simpa [List.filter_cons, h] using ih
    · simpa [List.filter_cons, h, countIn, List.countP_cons] using ih

theorem filter_ne_length_lt_iff (l : List Book) (bookId : String) :
    (l.filter (fun b => !(b.id == bookId))).length < l.length ↔
      l.any (fun b => b.id == bookId) = true := by
  induction l with
  | nil => simp
  | cons b bs ih =>
    cases hb : (b.id == bookId) with
    | false =>
      simp only [List.filter_cons, hb, Bool.not_false, if_true, List.length_cons,
        List.any_cons, Bool.false_eq_true, false_or]
      constructor
      · intro hlt
        exact ih.mp (by omega)
      · intro ha
        have := ih.mpr ha
        omega
    | true =>
      refine iff_of_true ?_ (by simp [hb])
      have hle := List.length_filter_le (fun b => !(b.id == bookId)) bs
      simp only [List.filter_cons, hb, Bool.not_true, Bool.false_eq_true,
        if_false, List.length_cons]
      omega

theorem countIn_pos_iff_any (l : List Book) (bookId : String) :
    1 ≤ countIn l bookId ↔ l.any (fun b => b.id == bookId) = true := by
  induction l with
  | nil => simp [countIn]
  | cons b bs ih =>
    by_cases h : b.id == bookId
    · simp [countIn, List.countP_cons, h]
    · simpa [countIn, List.countP_cons, h] using ih

/- ### C4 / C10: removeBookFromList -/

theorem removeBookFromList_eq_of_present (st : AppState)
    (bookId listName : String) (k : ListKey)
    (hk : keyOf? listName = some k) (hid : bookId ≠ "")
    (hpresent : (getL st.userBooks k).any (fun b => b.id == bookId) = true) :
    removeBookFromList st bookId listName =
      (true, setUB st (setL st.userBooks k
        ((getL st.userBooks k).filter (fun b => !(b.id == bookId))))) := by
  have hlt := (filter_ne_length_lt_iff (getL st.userBooks k) bookId).mpr hpresent
  simp [removeBookFromList, hid, hk, hlt]

theorem removeBookFromList_eq_of_absent (st : AppState)
    (bookId listName : String) (k : ListKey)
    (hk : keyOf? listName = some k) (hid : bookId ≠ "")
    (habsent : (getL st.userBooks k).any (fun b => b.id == bookId) = false) :
    removeBookFromList st bookId listName = (false, st) := by
  have hnlt : ¬ ((getL st.userBooks k).filter
      (fun b => !(b.id == bookId))).length < (getL st.userBooks k).length := by
    intro hlt
    rw [filter_ne_length_lt_iff] at hlt
    rw [habsent] at hlt
    exact Bool.false_ne_true hlt
  simp [removeBookFromList, hid, hk, hnlt]

/-- C4: with a valid list name and a non-empty id, `removeFromList` removes
the matching id from the named list and returns success when a book with
that id is present there; when no such book is present it returns failure
and leaves the whole state (all three lists and both caches) unchanged. -/
theorem removeBookFromList_spec (st : AppState) (bookId listName : String)
    (k : ListKey) (hk : keyOf? listName = some k) (hid : bookId ≠ "") :
    ((getL st.userBooks k).any (fun b => b.id == bookId) = true →
      removeBookFromList st bookId listName =
        (true, setUB st (setL st.userBooks k
          ((getL st.userBooks k).filter (fun b => !(b.id == bookId)))))) ∧
    ((getL st.userBooks k).any (fun b => b.id == bookId) = false →
      removeBookFromList st bookId listName = (false, st)) :=
  ⟨removeBookFromList_eq_of_present st bookId listName k hk hid,
    removeBookFromList_eq_of_absent st bookId listName k hk hid⟩

/-- C4 witness: concrete run of both branches. -/
theorem removeBookFromList_spec_witness :
    (removeBookFromList
        ⟨⟨[], [⟨"B1", none⟩], []⟩, [], []⟩ "B1" "wantToRead" =
      (true, ⟨⟨[], [], []⟩, [], []⟩)) ∧
    (removeBookFromList
        ⟨⟨[], [⟨"B1", none⟩], []⟩, [], []⟩ "B2" "wantToRead" =
      (false, ⟨⟨[], [⟨"B1", none⟩], []⟩, [], []⟩)) := by
  have h1 := removeBookFromList_spec
    ⟨⟨[], [⟨"B1", none⟩], []⟩, [], []⟩ "B1" "wantToRead"
    ListKey.wantToRead (by decide) (by decide)
  have h2 := removeBookFromList_spec
    ⟨⟨[], [⟨"B1", none⟩], []⟩, [], []⟩ "B2" "wantToRead"
    ListKey.wantToRead (by decide) (by decide)
  exact ⟨by simpa using h1.1 (by decide), by simpa using h2.2 (by decide)⟩

/-- C10: a successful removal filters the whole list, so afterwards the id
occurs zero times in that list, even if it previously occurred several
times. -/
theorem removeBookFromList_removes_all (st : AppState)
    (bookId listName : String) (k : ListKey)
    (hk : keyOf? listName = some k) (hid : bookId ≠ "")
    (hpresent : (getL st.userBooks k).any (fun b => b.id == bookId) = true) :
    (removeBookFromList st bookId listName).1 = true ∧
    countIn (getL (removeBookFromList st bookId listName).2.userBooks k)
      bookId = 0 := by
  have h := removeBookFromList_eq_of_present st bookId listName k hk hid hpresent
  rw [h]
  refine ⟨rfl, ?_⟩
  simp only [setUB_userBooks, getL_setL_same]
  exact countIn_filter_ne _ _

/-- C10 witness: a list holding two entries with the same id loses both. -/
theorem removeBookFromList_removes_all_witness :
    (removeBookFromList
        ⟨⟨[⟨"B1", none⟩, ⟨"B2", none⟩, ⟨"B1", none⟩], [], []⟩, [], []⟩
        "B1" "currentlyReading").1 = true ∧
    countIn (getL (removeBookFromList
        ⟨⟨[⟨"B1", none⟩, ⟨"B2", none⟩, ⟨"B1", none⟩], [], []⟩, [], []⟩
        "B1" "currentlyReading").2.userBooks ListKey.currentlyReading)
      "B1" = 0 :=
  removeBookFromList_removes_all
    ⟨⟨[⟨"B1", none⟩, ⟨"B2", none⟩, ⟨"B1", none⟩], [], []⟩, [], []⟩
    "B1" "currentlyReading" ListKey.currentlyReading
    (by decide) (by decide) (by decide)

/- ### C3: addBookToList -/

/-- C3: with a valid list name and a non-empty id, `addToList` fails and
leaves the state untouched when the id is already in any of the three
lists, and otherwise appends the book to the named list and succeeds;
and the concrete scenario: adding `B1` to `wantToRead` succeeds, after
which `getListOf(B1)` is `wantToRead` and adding `B1` to `readBooks`
fails. -/
theorem addBookToList_spec :
    (∀ (st : AppState) (book : Book) (listName : String) (k : ListKey),
      keyOf? listName = some k → book.id ≠ "" →
      (isAlreadyInAnyList st.userBooks book.id = true →
        addBookToList st book listName = (false, st)) ∧
      (isAlreadyInAnyList st.userBooks book.id = false →
        addBookToList st book listName =
          (true, setUB st (setL st.userBooks k (getL st.userBooks k ++ [book]))))) ∧
    ((addBookToList (initState [] []) ⟨"B1", none⟩ "wantToRead").1 = true ∧
      getBookListStatus
        (addBookToList (initState [] []) ⟨"B1", none⟩ "wantToRead").2.userBooks
        "B1" = some "wantToRead" ∧
      (addBookToList
        (addBookToList (initState [] []) ⟨"B1", none⟩ "wantToRead").2
        ⟨"B1", none⟩ "readBooks").1 = false) := by
  constructor
  · intro st book listName k hk hid
    constructor
    · intro h
      simp [addBookToList, hid, hk, h]
    · intro h
      simp [addBookToList, hid, hk, h]
  · exact ⟨by decide, by decide, by decide⟩

/-- C3 witness: the general part applied to a fresh book and `wantToRead`. -/
theorem addBookToList_spec_witness :
    addBookToList (initState [] []) ⟨"B2", none⟩ "wantToRead" =
      (true, setUB (initState [] [])
        (setL (initState [] []).userBooks ListKey.wantToRead
          (getL (initState [] []).userBooks ListKey.wantToRead ++ [⟨"B2", none⟩]))) :=
  (addBookToList_spec.1 (initState [] []) ⟨"B2", none⟩ "wantToRead"
    ListKey.wantToRead (by decide) (by decide)).2 (by decide)

theorem countIn_le_totCount (ub : UserBooks) (k : ListKey) (x : String) :
    countIn (getL ub k) x ≤ totCount ub x := by
  cases k <;> (simp only [totCount, getL]; omega)

theorem countIn_two_le_totCount (ub : UserBooks) (j k : ListKey) (x : String)
    (h : j ≠ k) :
    countIn (getL ub j) x + countIn (getL ub k) x ≤ totCount ub x := by
  cases j <;> cases k <;>
    first
    | exact absurd rfl h
    | (simp only [totCount, getL]; omega)

theorem totCount_setL (ub : UserBooks) (k : ListKey) (l : List Book)
    (x : String) :
    totCount (setL ub k l) x + countIn (getL ub k) x =
      totCount ub x + countIn l x := by
  cases k <;> (simp only [totCount, setL, getL]; omega)

theorem countIn_eq_zero_of_any_false (l : List Book) (bookId : String)
    (h : l.any (fun b => b.id == bookId) = false) : countIn l bookId = 0 := by
  by_contra hne
  have h1 : 1 ≤ countIn l bookId := Nat.one_le_iff_ne_zero.mpr hne
  rw [countIn_pos_iff_any, h] at h1
  exact Bool.false_ne_true h1

theorem totCount_eq_zero (ub : UserBooks) (bookId : String)
    (h : isAlreadyInAnyList ub bookId = false) : totCount ub bookId = 0 := by
  unfold isAlreadyInAnyList at h
  simp only [Bool.or_eq_false_iff] at h
  obtain ⟨⟨h1, h2⟩, h3⟩ := h
  simp [totCount, countIn_eq_zero_of_any_false _ _ h1,
    countIn_eq_zero_of_any_false _ _ h2, countIn_eq_zero_of_any_false _ _ h3]

theorem takeFirst_spec (l : List Book) (bookId : String) (b : Book)
    (rest : List Book) (h : takeFirst l bookId = some (b, rest)) :
    (b.id == bookId) = true ∧ rest.length + 1 = l.length ∧
    ∀ x : String, countIn l x = countIn rest x + (if b.id == x then 1 else 0) := by
  induction l generalizing b rest with
  | nil => simp [takeFirst] at h
  | cons a as ih =>
    by_cases ha : (a.id == bookId) = true
    · rw [takeFirst, if_pos ha] at h
      have hb : a = b := congrArg (fun p => p.1) (Option.some.inj h)
      have hrest : as = rest := congrArg (fun p => p.2) (Option.some.inj h)
      subst hb
      subst hrest
      refine ⟨ha, by simp, fun x => ?_⟩
      simp [countIn, List.countP_cons]
    · rw [takeFirst, if_neg ha] at h
      cases hr : takeFirst as bookId with
      | none =>
        rw [hr] at h
        simp at h
      | some p =>
        obtain ⟨pb, prest⟩ := p
        rw [hr] at h
        simp only [Option.map_some'] at h
        have hb : pb = b := congrArg (fun q => q.1) (Option.some.inj h)
        have hrest : a :: prest = rest := congrArg (fun q => q.2) (Option.some.inj h)
        subst hb
        subst hrest
        obtain ⟨hid, hlen, hcount⟩ := ih pb prest hr
        refine ⟨hid, by simp only [List.length_cons]; omega, fun x => ?_⟩
        have hc := hcount x
        simp only [countIn, List.countP_cons] at hc ⊢
        omega

theorem takeFirst_isSome_of_any (l : List Book) (bookId : String)
    (h : l.any (fun b => b.id == bookId) = true) :
    ∃ p : Book × List Book, takeFirst l bookId = some p := by
  induction l with
  | nil => simp at h
  | cons a as ih =>
    by_cases ha : (a.id == bookId) = true
    · exact ⟨(a, as), by rw [takeFirst, if_pos ha]⟩
    · simp only [List.any_cons, Bool.or_eq_true] at h
      rcases h with h | h
      · exact absurd h ha
      · obtain ⟨p, hp⟩ := ih h
        exact ⟨(p.1, a :: p.2), by rw [takeFirst, if_neg ha, hp]; rfl⟩

theorem findInCaches_id (st : AppState) (bookId : String) (b : Book)
    (h : findInCaches st bookId = some b) : (b.id == bookId) = true := by
  unfold findInCaches at h
  cases hf : st.lastSearchResults.find? (fun b => b.id == bookId) with
  | some c =>
    rw [hf] at h
    have hcb : c = b := by simpa [Option.orElse] using h
    subst hcb
    have hp := List.find?_some hf
    exact hp
  | none =>
    rw [hf] at h
    have h2 : st.recommendationsCache.find? (fun b => b.id == bookId) = some b := by
      simpa [Option.orElse] using h
    have hp := List.find?_some h2
    exact hp

theorem addBookToList_preserves (st : AppState) (book : Book)
    (listName : String) (hInv : InvStrong st.userBooks) :
    InvStrong (addBookToList st book listName).2.userBooks := by
  by_cases hid : book.id = ""
  · simpa [addBookToList, hid] using hInv
  cases hk : keyOf? listName with
  | none => simpa [addBookToList, hid, hk] using hInv
  | some k =>
    by_cases hmem : isAlreadyInAnyList st.userBooks book.id = true
    · simpa [addBookToList, hid, hk, hmem] using hInv
    · have hmem' : isAlreadyInAnyList st.userBooks book.id = false := by
        simpa using hmem
      intro x
      have hres : (addBookToList st book listName).2 =
          setUB st (setL st.userBooks k (getL st.userBooks k ++ [book])) := by
        simp [addBookToList, hid, hk, hmem']
      rw [hres]
      simp only [setUB_userBooks]
      have h1 := totCount_setL st.userBooks k (getL st.userBooks k ++ [book]) x
      rw [countIn_append, countIn_singleton] at h1
      have hIx := hInv x
      by_cases hbx : (book.id == x) = true
      · have hx : book.id = x := by simpa using hbx
        have h0 : totCount st.userBooks x = 0 := by
          rw [← hx]
          exact totCount_eq_zero st.userBooks book.id hmem'
        simp only [hbx, if_true] at h1
        omega
      · have hbx' : (book.id == x) = false := by simpa using hbx
        simp only [hbx', Bool.false_eq_true, if_false] at h1
        omega

theorem removeBookFromList_preserves (st : AppState) (bookId listName : String)
    (hInv : InvStrong st.userBooks) :
    InvStrong (removeBookFromList st bookId listName).2.userBooks := by
  by_cases hid : bookId = ""
  · simpa [removeBookFromList, hid] using hInv
  cases hk : keyOf? listName with
  | none => simpa [removeBookFromList, hid, hk] using hInv
  | some k =>
    by_cases hlt : ((getL st.userBooks k).filter
        (fun b => !(b.id == bookId))).length < (getL st.userBooks k).length
    · intro x
      have hres : (removeBookFromList st bookId listName).2 =
          setUB st (setL st.userBooks k
            ((getL st.userBooks k).filter (fun b => !(b.id == bookId)))) := by
        simp [removeBookFromList, hid, hk, hlt]
      rw [hres]
      simp only [setUB_userBooks]
      have h1 := totCount_setL st.userBooks k
        ((getL st.userBooks k).filter (fun b => !(b.id == bookId))) x
      have h2 : countIn ((getL st.userBooks k).filter
          (fun b => !(b.id == bookId))) x ≤ countIn (getL st.userBooks k) x := by
        unfold countIn
        exact List.Sublist.countP_le _ (List.filter_sublist _)
      have hIx := hInv x
      omega
    · simpa [removeBookFromList, hid, hk, hlt] using hInv

theorem moveBookToList_preserves (st : AppState) (bookId : String)
    (fromListName : Option String) (toListName : String)
    (hInv : InvStrong st.userBooks)
    (hok : okOpB st (Op.move bookId fromListName toListName) = true) :
    InvStrong (moveBookToList st bookId fromListName toListName).2.userBooks := by
  by_cases hid : bookId = ""
  · simpa [moveBookToList, hid] using hInv
  cases htk : keyOf? toListName with
  | none => simpa [moveBookToList, hid, htk] using hInv
  | some tk =>
    cases hfk : fromListName.bind keyOf? with
    | some fk =>
      cases htake : takeFirst (getL st.userBooks fk) bookId with
      | none => simpa [moveBookToList, hid, htk, hfk, htake] using hInv
      | some p =>
        obtain ⟨b, rest⟩ := p
        obtain ⟨hbid, hlen, hcnt⟩ := takeFirst_spec _ _ _ _ htake
        by_cases htgt : (getL (setL st.userBooks fk rest) tk).any
            (fun y => y.id == bookId) = true
        · have hres : (moveBookToList st bookId fromListName toListName).2 =
              setUB st (setL st.userBooks fk rest) := by
            simp [moveBookToList, hid, htk, hfk, htake, htgt]
          rw [hres]
          intro x
          simp only [setUB_userBooks]
          have h1 := totCount_setL st.userBooks fk rest x
          have h2 := hcnt x
          have hIx := hInv x
          omega
        · have htgt' : (getL (setL st.userBooks fk rest) tk).any
              (fun y => y.id == bookId) = false := by simpa using htgt
          have hres : (moveBookToList st bookId fromListName toListName).2 =
              setUB (setUB st (setL st.userBooks fk rest))
                (setL (setL st.userBooks fk rest) tk
                  (getL (setL st.userBooks fk rest) tk ++ [b])) := by
            simp [moveBookToList, hid, htk, hfk, htake, htgt']
          rw [hres]
          intro x
          simp only [setUB_userBooks]
          have h1 := totCount_setL st.userBooks fk rest x
          have h2 := hcnt x
          have h3 := totCount_setL (setL st.userBooks fk rest) tk
            (getL (setL st.userBooks fk rest) tk ++ [b]) x
          rw [countIn_append, countIn_singleton] at h3
          have hIx := hInv x
          by_cases hbx : (b.id == x) = true
          · have hxb : b.id = x := by simpa using hbx
            have hxid : b.id = bookId := by simpa using hbid
            have hxeq : x = bookId := by rw [← hxb, hxid]
            have h0 : countIn (getL (setL st.userBooks fk rest) tk) x = 0 := by
              apply countIn_eq_zero_of_any_false
              rw [hxeq]
              exact htgt'
            simp only [hbx, if_true] at h2 h3
            have h5 := countIn_le_totCount st.userBooks fk x
            omega
          · have hbx' : (b.id == x) = false := by simpa using hbx
            simp only [hbx', Bool.false_eq_true, if_false] at h2 h3
            omega
    | none =>
      have hfree : isAlreadyInAnyList st.userBooks bookId = false := by
        simp only [okOpB, hfk, Bool.not_eq_true'] at hok
        exact hok
      cases hfind : findInCaches st bookId with
      | none => simpa [moveBookToList, hid, htk, hfk, hfind] using hInv
      | some b =>
        have hbid := findInCaches_id st bookId b hfind
        have h0 : totCount st.userBooks bookId = 0 := totCount_eq_zero _ _ hfree
        by_cases htgt : (getL st.userBooks tk).any (fun y => y.id == bookId) = true
        · simpa [moveBookToList, hid, htk, hfk, hfind, htgt] using hInv
        · have htgt' : (getL st.userBooks tk).any
              (fun y => y.id == bookId) = false := by simpa using htgt
          have hres : (moveBookToList st bookId fromListName toListName).2 =
              setUB st (setL st.userBooks tk (getL st.userBooks tk ++ [b])) := by
            simp [moveBookToList, hid, htk, hfk, hfind, htgt']
          rw [hres]
          intro x
          simp only [setUB_userBooks]
          have h3 := totCount_setL st.userBooks tk (getL st.userBooks tk ++ [b]) x
          rw [countIn_append, countIn_singleton] at h3
          have hIx := hInv x
          by_cases hbx : (b.id == x) = true
          · have hxb : b.id = x := by simpa using hbx
            have hxid : b.id = bookId := by simpa using hbid
            have h0x : totCount st.userBooks x = 0 := by
              rw [← hxb, hxid]
              exact h0
            simp only [hbx, if_true] at h3
            omega
          · have hbx' : (b.id == x) = false := by simpa using hbx
            simp only [hbx', Bool.false_eq_true, if_false] at h3
            omega

theorem applyOp_preserves (st : AppState) (op : Op)
    (hInv : InvStrong st.userBooks) (hok : okOpB st op = true) :
    InvStrong (applyOp st op).userBooks := by
  cases op with
  | add b n => exact addBookToList_preserves st b n hInv
  | remove i n => exact removeBookFromList_preserves st i n hInv
  | move i f t => exact moveBookToList_preserves st i f t hInv hok

theorem runOps_preserves (ops : List Op) (st : AppState)
    (hInv : InvStrong st.userBooks) (hok : okRunB st ops = true) :
    InvStrong (runOps st ops).userBooks := by
  induction ops generalizing st with
  | nil => exact hInv
  | cons op ops ih =>
    simp only [okRunB, Bool.and_eq_true] at hok
    exact ih (applyOp st op) (applyOp_preserves st op hInv hok.1) hok.2

theorem numListsContaining_eq (ub : UserBooks) (x : String) :
    numListsContaining ub x =
      (if ub.currentlyReading.any (fun b => b.id == x) = true then 1 else 0) +
      (if ub.wantToRead.any (fun b => b.id == x) = true then 1 else 0) +
      (if ub.readBooks.any (fun b => b.id == x) = true then 1 else 0) := by
  by_cases h1 : ub.currentlyReading.any (fun b => b.id == x) = true <;>
  by_cases h2 : ub.wantToRead.any (fun b => b.id == x) = true <;>
  by_cases h3 : ub.readBooks.any (fun b => b.id == x) = true <;>
  simp [numListsContaining, h1, h2, h3]

theorem numListsContaining_le_totCount (ub : UserBooks) (x : String) :
    numListsContaining ub x ≤ totCount ub x := by
  have i1 : (if ub.currentlyReading.any (fun b => b.id == x) = true
      then 1 else 0) ≤ countIn ub.currentlyReading x := by
    by_cases h : ub.currentlyReading.any (fun b => b.id == x) = true
    · simpa [h] using (countIn_pos_iff_any _ _).mpr h
    · simp [h]
  have i2 : (if ub.wantToRead.any (fun b => b.id == x) = true
      then 1 else 0) ≤ countIn ub.wantToRead x := by
    by_cases h : ub.wantToRead.any (fun b => b.id == x) = true
    · simpa [h] using (countIn_pos_iff_any _ _).mpr h
    · simp [h]
  have i3 : (if ub.readBooks.any (fun b => b.id == x) = true
      then 1 else 0) ≤ countIn ub.readBooks x := by
    by_cases h : ub.readBooks.any (fun b => b.id == x) = true
    · simpa [h] using (countIn_pos_iff_any _ _).mpr h
    · simp [h]
  rw [numListsContaining_eq]
  unfold totCount
  omega

/- ### C1: list disjointness -/

/-- C1 (amended): starting from empty lists with arbitrary Search Cache and
Recommendation Cache contents, after any sequence of add/remove/move calls
in which each move either names one of the three lists as its source or is
issued while the book id is not in any list, every book id appears in at
most one of the three reading lists; each guarded operation preserves this
as a post-condition (`applyOp_preserves`). -/
theorem lists_disjoint_of_guarded_run (searchCache recCache : List Book)
    (ops : List Op)
    (hok : okRunB (initState searchCache recCache) ops = true) :
    ∀ bookId : String,
      numListsContaining
        (runOps (initState searchCache recCache) ops).userBooks bookId ≤ 1 := by
  intro x
  have hInv0 : InvStrong (initState searchCache recCache).userBooks := by
    intro y
    simp [initState, totCount, countIn]
  have h := runOps_preserves ops (initState searchCache recCache) hInv0 hok
  exact le_trans (numListsContaining_le_totCount _ _) (h x)

/-- C1 fails as literally stated: with the Search Cache holding a book
record, two cache-path moves (absent `fromListName`) put the same id into
two different lists, so the id appears in two of the three lists. -/
theorem lists_disjoint_counterexample :
    numListsContaining
      (runOps (initState [⟨"B1", none⟩] [])
        [Op.move "B1" none "currentlyReading",
         Op.move "B1" none "wantToRead"]).userBooks "B1" = 2 := by decide

/-- C1 witness: a concrete guarded run (an add, then a move naming its
source list) satisfies the guard and ends with disjoint lists. -/
theorem lists_disjoint_of_guarded_run_witness :
    okRunB (initState [] [])
      [Op.add ⟨"B1", none⟩ "wantToRead",
       Op.move "B1" (some "wantToRead") "readBooks"] = true ∧
    numListsContaining
      (runOps (initState [] [])
        [Op.add ⟨"B1", none⟩ "wantToRead",
         Op.move "B1" (some "wantToRead") "readBooks"]).userBooks "B1" ≤ 1 :=
  ⟨by decide,
    lists_disjoint_of_guarded_run [] []
      [Op.add ⟨"B1", none⟩ "wantToRead",
       Op.move "B1" (some "wantToRead") "readBooks"] (by decide) "B1"⟩

/- ### C2: idempotence of moving into the target list -/

/-- C2 (amended): if the lists are disjoint, the target list is valid and
already holds the book id, and the book can be located — from a named
source list that contains it, or, with `fromListName` absent, from one of
the two caches — then `moveToList` reports success, does not duplicate the
id in the target list, and leaves the target list's length unchanged. -/
theorem move_into_target_idempotent (st : AppState)
    (bookId toListName : String) (tk : ListKey)
    (hInv : InvStrong st.userBooks) (htk : keyOf? toListName = some tk)
    (hid : bookId ≠ "")
    (hpresent : (getL st.userBooks tk).any (fun b => b.id == bookId) = true) :
    (∀ (f : String) (fk : ListKey), keyOf? f = some fk →
      (getL st.userBooks fk).any (fun b => b.id == bookId) = true →
      (moveBookToList st bookId (some f) toListName).1 = true ∧
      (getL (moveBookToList st bookId (some f) toListName).2.userBooks
          tk).length = (getL st.userBooks tk).length ∧
      countIn (getL (moveBookToList st bookId (some f) toListName).2.userBooks
          tk) bookId = countIn (getL st.userBooks tk) bookId) ∧
    (∀ b : Book, findInCaches st bookId = some b →
      moveBookToList st bookId none toListName = (true, st)) := by
  constructor
  · intro f fk hf hfrom
    -- the id is in both the source and the target list, so they coincide
    have hcntF : 1 ≤ countIn (getL st.userBooks fk) bookId :=
      (countIn_pos_iff_any _ _).mpr hfrom
    have hcntT : 1 ≤ countIn (getL st.userBooks tk) bookId :=
      (countIn_pos_iff_any _ _).mpr hpresent
    have hfk_eq : fk = tk := by
      by_contra hne
      have := countIn_two_le_totCount st.userBooks fk tk bookId hne
      have := hInv bookId
      omega
    subst hfk_eq
    obtain ⟨⟨b, rest⟩, htake⟩ := takeFirst_isSome_of_any _ _ hfrom
    obtain ⟨hbid, hlen, hcnt⟩ := takeFirst_spec _ _ _ _ htake
    have hbid' : b.id = bookId := by simpa using hbid
    have hcnt1 : countIn (getL st.userBooks fk) bookId = 1 := by
      have := countIn_le_totCount st.userBooks fk bookId
      have := hInv bookId
      omega
    have hrest0 : countIn rest bookId = 0 := by
      have := hcnt bookId
      simp only [hbid, if_true] at this
      omega
    have hrestany : rest.any (fun y => y.id == bookId) = false := by
      by_contra hc
      have hc' : rest.any (fun y => y.id == bookId) = true := by
        simpa using hc
      have := (countIn_pos_iff_any rest bookId).mpr hc'
      omega
    have hbind : (some f).bind keyOf? = some fk := by simp [hf]
    have hres : moveBookToList st bookId (some f) toListName =
        (true, setUB (setUB st (setL st.userBooks fk rest))
          (setL (setL st.userBooks fk rest) fk
            (getL (setL st.userBooks fk rest) fk ++ [b]))) := by
      simp [moveBookToList, hid, htk, hbind, htake, hrestany]
    rw [hres]
    simp only [setUB_userBooks, getL_setL_same]
    refine ⟨trivial, ?_, ?_⟩
    · simp only [List.length_append, List.length_cons, List.length_nil]
      omega
    · rw [countIn_append, countIn_singleton, hrest0, hbid]
      simp [hcnt1]
  · intro b hfind
    have hres : moveBookToList st bookId none toListName = (true, st) := by
      simp [moveBookToList, hid, htk, hfind, hpresent]
    exact hres

/-- C2 fails as literally stated: the book id is present in the target
list, `fromListName` is absent and both caches are empty, and the
operation reports failure instead of success. -/
theorem move_into_target_idempotent_counterexample :
    ((getL (⟨⟨[], [⟨"B1", none⟩], []⟩, [], []⟩ : AppState).userBooks
        ListKey.wantToRead).any (fun b => b.id == "B1") = true) ∧
    moveBookToList (⟨⟨[], [⟨"B1", none⟩], []⟩, [], []⟩ : AppState)
      "B1" none "wantToRead" =
      (false, ⟨⟨[], [⟨"B1", none⟩], []⟩, [], []⟩) := by decide

theorem invStrong_single (b : Book) (sc rc : List Book) :
    InvStrong (⟨⟨[], [b], []⟩, sc, rc⟩ : AppState).userBooks := by
  intro x
  simp only [totCount, countIn, List.countP_nil, List.countP_cons]
  by_cases h : (b.id == x) = true <;> simp [h]

/-- C2 witness: both amended branches on concrete states. -/
theorem move_into_target_idempotent_witness :
    ((moveBookToList (⟨⟨[], [⟨"B1", none⟩], []⟩, [], []⟩ : AppState)
        "B1" (some "wantToRead") "wantToRead").1 = true ∧
      (getL (moveBookToList (⟨⟨[], [⟨"B1", none⟩], []⟩, [], []⟩ : AppState)
          "B1" (some "wantToRead") "wantToRead").2.userBooks
        ListKey.wantToRead).length = 1) ∧
    moveBookToList
      (⟨⟨[], [⟨"B1", none⟩], []⟩, [⟨"B1", none⟩], []⟩ : AppState)
      "B1" none "wantToRead" =
      (true, ⟨⟨[], [⟨"B1", none⟩], []⟩, [⟨"B1", none⟩], []⟩) := by
  have h := move_into_target_idempotent
    (⟨⟨[], [⟨"B1", none⟩], []⟩, [], []⟩ : AppState) "B1" "wantToRead"
    ListKey.wantToRead (invStrong_single ⟨"B1", none⟩ [] [])
    (by decide) (by decide) (by decide)
  have h2 := move_into_target_idempotent
    (⟨⟨[], [⟨"B1", none⟩], []⟩, [⟨"B1", none⟩], []⟩ : AppState) "B1"
    "wantToRead" ListKey.wantToRead
    (invStrong_single ⟨"B1", none⟩ [⟨"B1", none⟩] []) (by decide) (by decide)
    (by decide)
  obtain ⟨ha, hb, _⟩ := h.1 "wantToRead" ListKey.wantToRead
    (by decide) (by decide)
  exact ⟨⟨ha, by rw [hb]; decide⟩, h2.2 ⟨"B1", none⟩ (by decide)⟩

theorem nodup_foldl_insertStr (l : List String) (acc : List String)
    (hacc : acc.Nodup) : (l.foldl insertStr acc).Nodup := by
  induction l generalizing acc with
  | nil => exact hacc
  | cons s rest ih =>
    apply ih
    by_cases h : s ∈ acc
    · simpa [insertStr, h] using hacc
    · simp [insertStr, h, List.nodup_append, hacc]

theorem extractSignals_nodup_aux (books : List Book)
    (acc : List String × List String × List String)
    (h1 : acc.1.Nodup) (h2 : acc.2.1.Nodup) (h3 : acc.2.2.Nodup) :
    (books.foldl collectSignals acc).1.Nodup ∧
    (books.foldl collectSignals acc).2.1.Nodup ∧
    (books.foldl collectSignals acc).2.2.Nodup := by
  induction books generalizing acc with
  | nil => exact ⟨h1, h2, h3⟩
  | cons b rest ih =>
    simp only [List.foldl_cons]
    exact ih (collectSignals acc b)
      (nodup_foldl_insertStr _ _ h1)
      (nodup_foldl_insertStr _ _ h2)
      (nodup_foldl_insertStr _ _ h3)

/-- C7: the issued queries are exactly `subject:` queries for each of the
first 3 distinct genres, `inauthor:` queries for each of the first 2
distinct authors, and one space-joined query over the first 3 distinct
keywords; with no genres, authors, or keywords (in particular for an empty
read history) exactly the one fallback query `"bestsellers fiction"` is
issued.  The three signal sequences are duplicate-free. -/
theorem query_construction_spec :
    (∀ readBooks : List Book,
      buildQueries readBooks =
        (if (extractSignals readBooks).1 = [] ∧
            (extractSignals readBooks).2.1 = [] ∧
            (extractSignals readBooks).2.2 = []
         then ["bestsellers fiction"]
         else
           ((extractSignals readBooks).1.take 3).map
             (fun g => "subject:" ++ g) ++
           ((extractSignals readBooks).2.1.take 2).map
             (fun a => "inauthor:" ++ a) ++
           (if (extractSignals readBooks).2.2 = [] then []
            else [String.intercalate " "
              ((extractSignals readBooks).2.2.take 3)]))) ∧
    (∀ readBooks : List Book,
      (extractSignals readBooks).1.Nodup ∧
      (extractSignals readBooks).2.1.Nodup ∧
      (extractSignals readBooks).2.2.Nodup) ∧
    (buildQueries [] = ["bestsellers fiction"] ∧
      (buildQueries []).length = 1) := by
  refine ⟨?_, ?_, by decide, by decide⟩
  · intro readBooks
    unfold buildQueries
    cases hg : (extractSignals readBooks).1 with
    | cons g gs => simp [hg]
    | nil =>
      cases ha : (extractSignals readBooks).2.1 with
      | cons a as_ => simp [hg, ha]
      | nil =>
        cases hk : (extractSignals readBooks).2.2 with
        | cons k ks => simp [hg, ha, hk]
        | nil => simp [hg, ha, hk]
  · intro readBooks
    exact extractSignals_nodup_aux readBooks ([], [], [])
      List.nodup_nil List.nodup_nil List.nodup_nil

theorem keepBook_iff (owned seen : List String) (b : Book) :
    keepBook owned seen b = true ↔
      (eligibleBook b = true ∧ seen.contains b.id = false ∧
        owned.contains b.id = false) := by
  unfold keepBook eligibleBook
  cases b.volumeInfo <;>
    simp [Bool.and_eq_true, Bool.not_eq_true'] <;> tauto

theorem filterBooks_filter_of_seen (owned : List String) (l : List Book)
    (seen : List String) (x : String) (hx : x ∈ seen) :
    (filterBooks owned l seen).filter (fun b => b.id == x) = [] := by
  induction l generalizing seen with
  | nil => rfl
  | cons b rest ih =>
    by_cases hk : keepBook owned seen b = true
    · rw [filterBooks, if_pos hk]
      have hseen : seen.contains b.id = false := ((keepBook_iff _ _ _).mp hk).2.1
      have hbx : (b.id == x) = false := by
        by_contra hc
        have hc' : b.id = x := by simpa using hc
        rw [hc'] at hseen
        have hcx : seen.contains x = true := by simpa using hx
        rw [hcx] at hseen
        exact absurd hseen (by decide)
      simp only [List.filter_cons, hbx, Bool.false_eq_true, if_false]
      exact ih (seen ++ [b.id]) (List.mem_append_left _ hx)
    · rw [filterBooks, if_neg hk]
      exact ih seen hx

theorem filterBooks_filter_of_not_seen (owned : List String) (l : List Book)
    (seen : List String) (x : String) (hx : x ∉ seen) :
    (filterBooks owned l seen).filter (fun b => b.id == x) =
      (l.find? (fun b =>
        b.id == x && eligibleBook b && !(owned.contains b.id))).toList := by
  induction l generalizing seen with
  | nil => rfl
  | cons b rest ih =>
    by_cases hbx : (b.id == x) = true
    · have hbx' : b.id = x := by simpa using hbx
      by_cases hs : (eligibleBook b && !(owned.contains b.id)) = true
      · have hs' := hs
        rw [Bool.and_eq_true] at hs'
        obtain ⟨hel, hown'⟩ := hs'
        have hown : owned.contains b.id = false := by simpa using hown'
        have hownm : b.id ∉ owned := by simpa using hown
        have hsn : seen.contains b.id = false := by
          rw [hbx']
          simpa using hx
        have hk : keepBook owned seen b = true :=
          (keepBook_iff _ _ _).mpr ⟨hel, hsn, hown⟩
        have hxmem : x ∈ seen ++ [b.id] := by
          rw [← hbx']
          exact List.mem_append_right _ (by simp)
        have htail := filterBooks_filter_of_seen owned rest (seen ++ [b.id]) x hxmem
        have hcond : (b.id == x && eligibleBook b && !(owned.contains b.id))
            = true := by
          simp [hbx, hel, hownm]
        rw [filterBooks, if_pos hk,
          @List.filter_cons_of_pos Book (fun y => y.id == x) b
            (filterBooks owned rest (seen ++ [b.id])) hbx,
          htail,
          @List.find?_cons_of_pos Book
            (fun y => y.id == x && eligibleBook y && !(owned.contains y.id))
            b rest hcond,
          Option.toList_some]
      · have hk : ¬ keepBook owned seen b = true := by
          intro hkk
          obtain ⟨hel, hsn, hown⟩ := (keepBook_iff _ _ _).mp hkk
          have hownm : b.id ∉ owned := by simpa using hown
          exact hs (by simp [hel, hownm])
        have hcond : ¬ (b.id == x && eligibleBook b && !(owned.contains b.id))
            = true := by
          intro hc
          rw [Bool.and_eq_true, Bool.and_eq_true] at hc
          exact hs (by rw [Bool.and_eq_true]; exact ⟨hc.1.2, hc.2⟩)
        rw [filterBooks, if_neg hk, ih seen hx,
          @List.find?_cons_of_neg Book
            (fun y => y.id == x && eligibleBook y && !(owned.contains y.id))
            b rest hcond]
    · have hbx' : (b.id == x) = false := by simpa using hbx
      have hcond : ¬ (b.id == x && eligibleBook b && !(owned.contains b.id))
          = true := by
        simp [hbx']
      by_cases hk : keepBook owned seen b = true
      · have hx' : x ∉ seen ++ [b.id] := by
          intro hmem
          rcases List.mem_append.mp hmem with hmm | hmm
          · exact hx hmm
          · have hxb : x = b.id := by simpa using hmm
            rw [hxb] at hbx'
            simp at hbx'
        rw [filterBooks, if_pos hk,
          @List.filter_cons_of_neg Book (fun y => y.id == x) b
            (filterBooks owned rest (seen ++ [b.id])) hbx,
          ih (seen ++ [b.id]) hx',
          @List.find?_cons_of_neg Book
            (fun y => y.id == x && eligibleBook y && !(owned.contains y.id))
            b rest hcond]
      · rw [filterBooks, if_neg hk, ih seen hx,
          @List.find?_cons_of_neg Book
            (fun y => y.id == x && eligibleBook y && !(owned.contains y.id))
            b rest hcond]

theorem filterBooks_all_eligible (owned : List String) (l : List Book)
    (seen : List String) :
    (filterBooks owned l seen).all
      (fun b => eligibleBook b && !(owned.contains b.id)) = true := by
  induction l generalizing seen with
  | nil => rfl
  | cons b rest ih =>
    by_cases hk : keepBook owned seen b = true
    · rw [filterBooks, if_pos hk]
      obtain ⟨hel, hsn, hown⟩ := (keepBook_iff _ _ _).mp hk
      have hownm : b.id ∉ owned := by simpa using hown
      simp only [List.all_cons, Bool.and_eq_true]
      exact ⟨⟨hel, by simp [hownm]⟩, ih _⟩
    · rw [filterBooks, if_neg hk]
      exact ih seen

/-- C5: a book of the merged candidate sequence survives the filter pass
iff it has a non-empty id, a descriptive block and a cover thumbnail
(`eligibleBook`), its id is not owned, and no earlier such candidate has
the same id: per id, the surviving entries are exactly the first eligible
non-owned entry (first-seen-wins dedup).  Every survivor is eligible and
not owned (owned books never appear), and no id survives twice. -/
theorem filter_step_spec :
    (∀ (merged : List Book) (owned : List String) (x : String),
      (filterBooks owned merged []).filter (fun b => b.id == x) =
        (merged.find? (fun b =>
          b.id == x && eligibleBook b && !(owned.contains b.id))).toList) ∧
    (∀ (merged : List Book) (owned : List String),
      (filterBooks owned merged []).all
        (fun b => eligibleBook b && !(owned.contains b.id)) = true) ∧
    (∀ (merged : List Book) (owned : List String) (x : String),
      ((filterBooks owned merged []).filter (fun b => b.id == x)).length
        ≤ 1) := by
  refine ⟨fun merged owned x => ?_,
    fun merged owned => filterBooks_all_eligible owned merged [],
    fun merged owned x => ?_⟩
  · exact filterBooks_filter_of_not_seen owned merged [] x (List.not_mem_nil x)
  · rw [filterBooks_filter_of_not_seen owned merged [] x (List.not_mem_nil x)]
    cases merged.find? (fun b =>
      b.id == x && eligibleBook b && !(owned.contains b.id)) <;> simp

theorem rankLe_of_rankBefore (a b : Book) (h : rankBefore a b = true) :
    rankLe a b := by
  unfold rankBefore at h
  rw [Bool.or_eq_true, Bool.and_eq_true] at h
  rcases h with h | ⟨h1, h2⟩
  · exact Or.inl (by simpa using h)
  · refine Or.inr ⟨by simpa using h1, ?_⟩
    have : countOf b < countOf a := by simpa using h2
    omega

theorem rankLe_of_not_rankBefore (a b : Book) (h : rankBefore a b = false) :
    rankLe b a := by
  unfold rankBefore at h
  rw [Bool.or_eq_false_iff] at h
  obtain ⟨h1, h2⟩ := h
  have h1' : ¬ ratingOf b < ratingOf a := by simpa using h1
  rcases lt_or_eq_of_le (le_of_not_lt h1') with hlt | heq
  · exact Or.inl hlt
  · refine Or.inr ⟨heq.symm, ?_⟩
    rw [Bool.and_eq_false_iff] at h2
    rcases h2 with h2 | h2
    · exact absurd heq (by simpa using h2)
    · have : ¬ countOf b < countOf a := by simpa using h2
      omega

theorem rankLe_trans (a b c : Book) (h1 : rankLe a b) (h2 : rankLe b c) :
    rankLe a c := by
  rcases h1 with h1 | ⟨h1, h1c⟩ <;> rcases h2 with h2 | ⟨h2, h2c⟩
  · exact Or.inl (lt_trans h2 h1)
  · exact Or.inl (h2 ▸ h1)
  · exact Or.inl (h1 ▸ h2)
  · exact Or.inr ⟨h1.trans h2, le_trans h2c h1c⟩

theorem mem_insertRanked (x y : Book) (l : List Book) :
    y ∈ insertRanked x l ↔ y = x ∨ y ∈ l := by
  induction l with
  | nil => simp [insertRanked]
  | cons z zs ih =>
    by_cases hr : rankBefore z x = true
    · rw [insertRanked, if_pos hr]
      simp only [List.mem_cons, ih]
      tauto
    · rw [insertRanked, if_neg hr]
      simp only [List.mem_cons]

theorem pairwise_insertRanked (x : Book) (l : List Book)
    (h : l.Pairwise rankLe) : (insertRanked x l).Pairwise rankLe := by
  induction l with
  | nil => simp [insertRanked]
  | cons y ys ih =>
    rw [List.pairwise_cons] at h
    obtain ⟨hy, hys⟩ := h
    by_cases hr : rankBefore y x = true
    · rw [insertRanked, if_pos hr]
      rw [List.pairwise_cons]
      refine ⟨?_, ih hys⟩
      intro z hz
      rcases (mem_insertRanked x z ys).mp hz with rfl | hz'
      · exact rankLe_of_rankBefore y z hr
      · exact hy z hz'
    · rw [insertRanked, if_neg hr]
      have hr' : rankBefore y x = false := by simpa using hr
      have hxy : rankLe x y := rankLe_of_not_rankBefore y x hr'
      rw [List.pairwise_cons]
      refine ⟨?_, List.Pairwise.cons hy hys⟩
      intro z hz
      rcases List.mem_cons.mp hz with rfl | hz'
      · exact hxy
      · exact rankLe_trans x y z hxy (hy z hz')

theorem sortBooks_pairwise (l : List Book) :
    (sortBooks l).Pairwise rankLe := by
  induction l with
  | nil => exact List.Pairwise.nil
  | cons x xs ih => exact pairwise_insertRanked x (sortBooks xs) ih

theorem key_ne_of_rankBefore (a b : Book) (h : rankBefore a b = true) :
    keyB a ≠ keyB b := by
  unfold rankBefore at h
  rw [Bool.or_eq_true, Bool.and_eq_true] at h
  intro hk
  have h1 : ratingOf a = ratingOf b := congrArg Prod.fst hk
  have h2 : countOf a = countOf b := congrArg Prod.snd hk
  rcases h with h | ⟨_, hc⟩
  · have : ratingOf b < ratingOf a := by simpa using h
    rw [h1] at this
    exact lt_irrefl _ this
  · have : countOf b < countOf a := by simpa using hc
    omega

theorem filter_key_insertRanked (x : Book) (l : List Book) (k : Rat × Nat) :
    (insertRanked x l).filter (fun b => decide (keyB b = k)) =
      if keyB x = k then x :: l.filter (fun b => decide (keyB b = k))
      else l.filter (fun b => decide (keyB b = k)) := by
  induction l with
  | nil =>
    by_cases hk : keyB x = k <;> simp [insertRanked, hk]
  | cons y ys ih =>
    by_cases hr : rankBefore y x = true
    · rw [insertRanked, if_pos hr]
      have hne := key_ne_of_rankBefore y x hr
      by_cases hky : keyB y = k
      · have hkx : ¬ keyB x = k := fun hc => hne (hky ▸ hc ▸ rfl)
        simp [List.filter_cons, hky, hkx, ih]
      · simp [List.filter_cons, hky, ih]
    · rw [insertRanked, if_neg hr]
      by_cases hkx : keyB x = k
      · simp [List.filter_cons, hkx]
      · simp [List.filter_cons, hkx]

theorem sortBooks_stable (l : List Book) (k : Rat × Nat) :
    (sortBooks l).filter (fun b => decide (keyB b = k)) =
      l.filter (fun b => decide (keyB b = k)) := by
  induction l with
  | nil => rfl
  | cons x xs ih =>
    rw [sortBooks, filter_key_insertRanked]
    by_cases hk : keyB x = k
    · simp [List.filter_cons, hk, ih]
    · simp [List.filter_cons, hk, ih]

/-- C6: the ranked list is stably sorted descending by average rating
(missing → 0), ties broken descending by ratings count (missing → 0):
it is pairwise ordered by `rankLe`, entries with exactly equal keys keep
their original relative order, and the final recommendations are the
first 10 of the ranked list (so at most 10).  The concrete books with
(rating, count) pairs (4.5,100), (4.5,50), (5.0,10) rank as 5.0/10, then
4.5/100, then 4.5/50. -/
theorem ranking_spec :
    (∀ l : List Book, (sortBooks l).Pairwise rankLe) ∧
    (∀ (l : List Book) (k : Rat × Nat),
      (sortBooks l).filter (fun b => decide (keyB b = k)) =
        l.filter (fun b => decide (keyB b = k))) ∧
    (∀ (owned : List String) (results : List (Except String (List Book))),
      finalRecommendations owned results =
        (sortBooks (filterBooks owned (mergeResults results) [])).take 10 ∧
      (finalRecommendations owned results).length ≤ 10) ∧
    sortBooks [ratedBook "A100" (4.5 : Rat) 100,
        ratedBook "A50" (4.5 : Rat) 50, ratedBook "R5" (5 : Rat) 10] =
      [ratedBook "R5" (5 : Rat) 10, ratedBook "A100" (4.5 : Rat) 100,
        ratedBook "A50" (4.5 : Rat) 50] := by
  refine ⟨sortBooks_pairwise, sortBooks_stable, ?_, ?_⟩
  · intro owned results
    refine ⟨rfl, ?_⟩
    have h := List.length_take_le 10
      (sortBooks (filterBooks owned (mergeResults results) []))
    simpa [finalRecommendations] using h
  · norm_num [sortBooks, insertRanked, rankBefore, ratedBook, ratingOf, countOf]

/- ### C8: per-query failure handling -/

theorem mergeResults_aux (ls : List (List Book)) (acc : List Book) :
    ls.foldl (fun a l => a ++ l) acc =
      acc ++ ls.foldl (fun a l => a ++ l) [] := by
  induction ls generalizing acc with
  | nil => simp
  | cons x xs ih =>
    simp only [List.foldl_cons, List.nil_append]
    rw [ih (acc ++ x), ih x, List.append_assoc]

theorem mergeResults_cons (r : Except String (List Book))
    (rs : List (Except String (List Book))) :
    mergeResults (r :: rs) = settleResult r ++ mergeResults rs := by
  unfold mergeResults
  simp only [List.map_cons, List.foldl_cons, List.nil_append]
  exact mergeResults_aux _ _

/-- C8: a failed query settles to an empty result set; a failed query in
the middle of the batch contributes nothing (the batch is not aborted);
and when every query fails, the merge is empty and the empty
recommendation list is still committed to the Recommendation Cache. -/
theorem fanout_failure_spec :
    (∀ e : String, settleResult (Except.error e) = []) ∧
    (∀ (rs1 rs2 : List (Except String (List Book))) (e : String),
      mergeResults (rs1 ++ Except.error e :: rs2) =
        mergeResults (rs1 ++ rs2)) ∧
    (∀ rs : List (Except String (List Book)),
      (∀ r ∈ rs, ∃ e, r = Except.error e) →
      mergeResults rs = [] ∧
      (∀ owned : List String, finalRecommendations owned rs = []) ∧
      (∀ st : AppState,
        (commitRecommendations st rs).recommendationsCache = [])) := by
  refine ⟨fun e => rfl, ?_, ?_⟩
  · intro rs1 rs2 e
    induction rs1 with
    | nil =>
      simp only [List.nil_append]
      rw [mergeResults_cons]
      rfl
    | cons r rs ih =>
      simp only [List.cons_append]
      rw [mergeResults_cons, mergeResults_cons, ih]
  · intro rs hall
    have hmerge : mergeResults rs = [] := by
      induction rs with
      | nil => rfl
      | cons r rest ih =>
        obtain ⟨e, he⟩ := hall r (List.mem_cons_self r rest)
        rw [mergeResults_cons, he]
        exact ih (fun q hq => hall q (List.mem_cons_of_mem r hq))
    refine ⟨hmerge, ?_, ?_⟩
    · intro owned
      unfold finalRecommendations
      rw [hmerge]
      rfl
    · intro st
      unfold commitRecommendations setRC finalRecommendations
      rw [hmerge]
      rfl

/-- C8 witness: a batch of two failing queries merges to nothing and
commits an empty cache. -/
theorem fanout_failure_spec_witness :
    mergeResults [Except.error "boom", Except.error "down"] = [] ∧
    (commitRecommendations (initState [] [])
      [Except.error "boom", Except.error "down"]).recommendationsCache = [] := by
  have h := fanout_failure_spec.2.2 [Except.error "boom", Except.error "down"]
    (by
      intro r hr
      simp only [List.mem_cons, List.not_mem_nil, or_false] at hr
      rcases hr with rfl | rfl
      · exact ⟨"boom", rfl⟩
      · exact ⟨"down", rfl⟩)
  exact ⟨h.1, h.2.2 (initState [] [])⟩

theorem coverScan_aux (ids : List IndustryIdentifier)
    (acc : Option String × Option String × Option String) :
    (ids.foldl coverStep acc).1 =
      (match ids.reverse.find? (fun i => i.type == "ISBN_13") with
       | some i => i.identifier
       | none => acc.1) ∧
    (ids.foldl coverStep acc).2.1 =
      (match ids.reverse.find? (fun i => i.type == "ISBN_10") with
       | some i => i.identifier
       | none => acc.2.1) ∧
    (ids.foldl coverStep acc).2.2 =
      (match ids.reverse.find? (fun i =>
          i.type == "OTHER" && startsWithS (i.identifier.getD "") "OCLC") with
       | some i => some (replaceFirst (i.identifier.getD "") "OCLC:" "")
       | none => acc.2.2) := by
  induction ids generalizing acc with
  | nil => exact ⟨rfl, rfl, rfl⟩
  | cons i ids ih =>
    obtain ⟨ih1, ih2, ih3⟩ := ih (coverStep acc i)
    simp only [List.foldl_cons, List.reverse_cons, List.find?_append]
    refine ⟨?_, ?_, ?_⟩
    · rw [ih1]
      cases hf : ids.reverse.find? (fun j => j.type == "ISBN_13") with
      | some j => simp [Option.or]
      | none =>
        simp only [Option.or]
        by_cases ht : (i.type == "ISBN_13") = true
        · rw [@List.find?_cons_of_pos IndustryIdentifier
            (fun j => j.type == "ISBN_13") i [] ht]
          simp [coverStep, ht]
        · rw [@List.find?_cons_of_neg IndustryIdentifier
            (fun j => j.type == "ISBN_13") i [] ht, List.find?_nil]
          by_cases h10 : (i.type == "ISBN_10") = true <;>
            by_cases hoc : (i.type == "OTHER" &&
              startsWithS (i.identifier.getD "") "OCLC") = true <;>
            simp [coverStep, ht, h10, hoc]
    · rw [ih2]
      cases hf : ids.reverse.find? (fun j => j.type == "ISBN_10") with
      | some j => simp [Option.or]
      | none =>
        simp only [Option.or]
        by_cases ht : (i.type == "ISBN_10") = true
        · rw [@List.find?_cons_of_pos IndustryIdentifier
            (fun j => j.type == "ISBN_10") i [] ht]
          have ht13 : (i.type == "ISBN_13") = false := by
            have : i.type = "ISBN_10" := by simpa using ht
            simp [this]
          simp [coverStep, ht, ht13]
        · rw [@List.find?_cons_of_neg IndustryIdentifier
            (fun j => j.type == "ISBN_10") i [] ht, List.find?_nil]
          by_cases h13 : (i.type == "ISBN_13") = true <;>
            by_cases hoc : (i.type == "OTHER" &&
              startsWithS (i.identifier.getD "") "OCLC") = true <;>
            simp [coverStep, ht, h13, hoc]
    · rw [ih3]
      cases hf : ids.reverse.find? (fun j => j.type == "OTHER" &&
          startsWithS (j.identifier.getD "") "OCLC") with
      | some j => simp [Option.or]
      | none =>
        simp only [Option.or]
        by_cases ht : (i.type == "OTHER" &&
            startsWithS (i.identifier.getD "") "OCLC") = true
        · rw [@List.find?_cons_of_pos IndustryIdentifier
            (fun j => j.type == "OTHER" &&
              startsWithS (j.identifier.getD "") "OCLC") i [] ht]
          have htO : i.type = "OTHER" := by
            have := (Bool.and_eq_true _ _).mp ht
            simpa using this.1
          have ht13 : (i.type == "ISBN_13") = false := by simp [htO]
          have ht10 : (i.type == "ISBN_10") = false := by simp [htO]
          simp [coverStep, ht, ht13, ht10]
        · rw [@List.find?_cons_of_neg IndustryIdentifier
            (fun j => j.type == "OTHER" &&
              startsWithS (j.identifier.getD "") "OCLC") i [] ht, List.find?_nil]
          by_cases h13 : (i.type == "ISBN_13") = true <;>
            by_cases h10 : (i.type == "ISBN_10") = true <;>
            simp [coverStep, ht, h13, h10]

theorem coverScan_eq (ids : List IndustryIdentifier) :
    coverScan ids = (lastIsbn13 ids, lastIsbn10 ids, lastOclc ids) := by
  have h := coverScan_aux ids (none, none, none)
  unfold coverScan at *
  unfold lastIsbn13 lastIsbn10 lastOclc
  exact Prod.ext h.1 (Prod.ext h.2.1 h.2.2)

/-- C9: the cover URL is derived from the identifiers with priority
ISBN-13, then ISBN-10, then an OCLC-prefixed OTHER identifier with its
first `OCLC:` stripped (within a kind, the last entry wins, and a blank
or missing identifier value yields no URL); a missing block or one
without usable identifiers yields none; the size defaults to `M`.  The
concrete cases check the priority, the prefix stripping and the default
size. -/
theorem cover_url_spec :
    (∀ size : String, getOpenLibraryCover none size = none) ∧
    (∀ (info : VolumeInfo) (size : String),
      info.industryIdentifiers = none →
      getOpenLibraryCover (some info) size = none) ∧
    (∀ ids : List IndustryIdentifier,
      coverScan ids = (lastIsbn13 ids, lastIsbn10 ids, lastOclc ids)) ∧
    (∀ (info : VolumeInfo) (ids : List IndustryIdentifier) (size : String),
      info.industryIdentifiers = some ids →
      getOpenLibraryCover (some info) size =
        (match truthySlot (lastIsbn13 ids) with
         | some isbn => some ("https://covers.openlibrary.org/b/isbn/"
             ++ isbn ++ "-" ++ size ++ ".jpg")
         | none =>
           match truthySlot (lastIsbn10 ids) with
           | some isbn => some ("https://covers.openlibrary.org/b/isbn/"
               ++ isbn ++ "-" ++ size ++ ".jpg")
           | none =>
             match truthySlot (lastOclc ids) with
             | some oclc => some ("https://covers.openlibrary.org/b/oclc/"
                 ++ oclc ++ "-" ++ size ++ ".jpg")
             | none => none)) ∧
    (∀ vi : Option VolumeInfo,
      getOpenLibraryCover vi = getOpenLibraryCover vi "M") ∧
    (getOpenLibraryCover (some (idBlock
        [⟨"ISBN_10", some "1111"⟩, ⟨"ISBN_13", some "9990"⟩,
         ⟨"OTHER", some "OCLC:77"⟩])) =
      some "https://covers.openlibrary.org/b/isbn/9990-M.jpg") ∧
    (getOpenLibraryCover (some (idBlock [⟨"OTHER", some "OCLC:77"⟩])) "L" =
      some "https://covers.openlibrary.org/b/oclc/77-L.jpg") ∧
    (getOpenLibraryCover (some (idBlock
        [⟨"OTHER", some "FOO"⟩, ⟨"ISBN_13", none⟩])) "S" = none) := by
  refine ⟨fun size => rfl, ?_, coverScan_eq, ?_, fun vi => rfl,
    by decide, by decide, by decide⟩
  · intro info size h
    simp [getOpenLibraryCover, h]
  · intro info ids size h
    simp only [getOpenLibraryCover, h, coverScan_eq]

/-- C9 witness: the general identifier characterization applied at a
concrete block with an ISBN-10 entry only. -/
theorem cover_url_spec_witness :
    getOpenLibraryCover (some (idBlock [⟨"ISBN_10", some "1111"⟩])) "S" =
      some "https://covers.openlibrary.org/b/isbn/1111-S.jpg" := by
  have h := cover_url_spec.2.2.2.1 (idBlock [⟨"ISBN_10", some "1111"⟩])
    [⟨"ISBN_10", some "1111"⟩] "S" rfl
  rw [h]
  decide

end BookTracker

